import Mathlib

/-!
Verification of the ecopower-dynamic-prices normalization and pricing core.

The definitions below are a shallow embedding of
`custom_components/ecopower_dynamic_prices/parsers.py`,
`calculations.py` and the defaults of `const.py`.

Modelling conventions, fixed once for the whole file:

* Attribute mappings are insertion-ordered association lists
  `List (String × Value)`; Python dict iteration order is insertion order,
  which the key-resolution scan depends on.  Keys are strings (the source
  skips non-string keys in its scan, so non-string keys never resolve).
* A timezone-aware `datetime` is a pair of a wall-clock reading and a fixed
  UTC offset, both in whole minutes.  Comparison is by absolute instant
  (wall minus offset), `date()` is the wall-clock day number, and adding a
  `timedelta` shifts the wall clock while keeping the offset, exactly as
  Python fixed-offset datetimes behave.  Naive datetimes (whose comparison
  with an aware `now` raises) are outside the modelled input space.
* `datetime.fromisoformat` string parsing is not embedded; attribute values
  carry `datetime` objects directly, which `_parse_datetime` returns
  unchanged (its `isinstance(value, datetime)` branch).  A string value is
  modelled as an unparseable value (the element is skipped), and numeric
  conversion accepts numbers and booleans (`float(True) = 1.0`).
* Prices are exact rationals; `round(x, 4)` is round-half-to-even at four
  decimals, the behaviour of Python `round`.
* `isoformat()` is modelled as an injective rendering of the wall clock and
  offset; no claim inspects the text of the serialization, only which
  datetime was serialized.
* Iterating a non-sequence value where the source writes `for entry in data`
  raises an uncaught `TypeError` in Python and returns nothing; such inputs
  are modelled as the empty sequence.  Entries and neighbouring entries that
  are not mappings generally raise inside the per-element `try` and are
  skipped; they are modelled as per-element failures.
-/

/-- A timezone-aware datetime: wall-clock minutes and a UTC offset in
minutes.  Mirrors Python aware `datetime` restricted to fixed offsets. -/
structure DT where
  wall : Int
  offset : Int
deriving DecidableEq, Repr

/-- Minutes in a calendar day. -/
def minutesPerDay : Int := 1440

/-- The absolute instant of an aware datetime: wall clock minus UTC offset.
Aware datetimes compare by this value. -/
def DT.instant (t : DT) : Int := t.wall - t.offset

/-- `datetime.date()`: the wall-clock calendar day number. -/
def DT.date (t : DT) : Int := t.wall.fdiv minutesPerDay

/-- `now.replace(hour=0, minute=0, second=0, microsecond=0)`: midnight of the
same wall-clock day, same offset. -/
def DT.startOfDay (t : DT) : DT := ⟨t.date * minutesPerDay, t.offset⟩

/-- `dt + timedelta(minutes=d)`: shifts the wall clock, keeps the offset. -/
def DT.addMinutes (t : DT) (d : Int) : DT := ⟨t.wall + d, t.offset⟩

/-- `dt1 - dt2`: the `timedelta` between two aware datetimes, in minutes. -/
def DT.sub (a b : DT) : Int := a.instant - b.instant

/-- `a <= b` on aware datetimes (comparison by instant). -/
def dtLe (a b : DT) : Bool := decide (a.instant ≤ b.instant)

/-- `a < b` on aware datetimes (comparison by instant). -/
def dtLt (a b : DT) : Bool := decide (a.instant < b.instant)

/-- Modelled `datetime.isoformat()`: an injective rendering of the datetime.
No claim depends on the exact text, only on which datetime is rendered. -/
def DT.isoformat (t : DT) : String :=
  "dt:" ++ toString t.wall ++ "@" ++ toString t.offset

/-- An attribute value: the scalar, sequence and mapping shapes that occur in
upstream sensor attribute bags. -/
inductive Value where
  | vStr (s : String)
  | vNum (q : ℚ)
  | vBool (b : Bool)
  | vTime (t : DT)
  | vList (xs : List Value)
  | vDict (entries : List (String × Value))
  | vNone

/-- An attribute mapping: insertion-ordered string-keyed entries. -/
abbrev Dict := List (String × Value)

/-- Python truthiness of a value, as used by `tomorrow_valid and ...`. -/
def truthy : Value → Bool
  | Value.vStr s => !(s == "")
  | Value.vNum q => decide (q ≠ 0)
  | Value.vBool b => b
  | Value.vTime _ => true
  | Value.vList xs => !xs.isEmpty
  | Value.vDict d => !d.isEmpty
  | Value.vNone => false

/-- `key in attributes` (verbatim membership). -/
def hasKey (attrs : Dict) (k : String) : Bool :=
  attrs.any (fun p => p.1 == k)

/-- `attributes[key]` / `attributes.get(key)`: first entry with that key. -/
def lookup (attrs : Dict) (k : String) : Option Value :=
  (attrs.find? (fun p => p.1 == k)).map Prod.snd

/-- Python `str.lower()` on the ASCII key vocabulary: lower-case each
character. -/
def lowerStr (s : String) : String := ⟨s.data.map Char.toLower⟩

/-- Python `str.replace(" ", "_")`: with a single-character pattern this is
exactly a character map. -/
def underscoreSpaces (s : String) : String :=
  ⟨s.data.map (fun c => if c == ' ' then '_' else c)⟩

/-- One actual key matching a candidate in the `_find_key` scan: the source
checks `attr_key.lower() == key.lower()` and then, for the same `attr_key`,
`attr_key.lower().replace(" ", "_") == key.lower()`; the first actual key
satisfying either test is returned, so the two tests are folded into one
predicate per key. -/
def keyMatches (attrKey k : String) : Bool :=
  lowerStr attrKey == lowerStr k ||
    underscoreSpaces (lowerStr attrKey) == lowerStr k

/-- The inner scan of `_find_key` for one candidate: walk the actual keys in
insertion order and return the first that matches case-insensitively or with
spaces treated as underscores. -/
def findKeyScan (attrs : Dict) (k : String) : Option String :=
  (attrs.find? (fun p => keyMatches p.1 k)).map Prod.fst

/-- `_find_key(attributes, *possible_keys)` from `parsers.py`: for each
candidate, first a verbatim membership test, then the tolerant scan over the
actual keys; the next candidate is tried only when both fail. -/
def findKey (attrs : Dict) : List String → Option String
  | [] => none
  | k :: ks =>
    if hasKey attrs k then some k
    else
      match findKeyScan attrs k with
      | some ak => some ak
      | none => findKey attrs ks

/-- `_has_array_with_keys(attributes, array_key, required_keys)` from
`parsers.py`: verbatim lookup of the array key, non-empty list check,
dict-like first entry, and tolerant (`_find_key`) resolution of each required
key on the first entry only. -/
def hasArrayWithKeys (attrs : Dict) (arrayKey : String)
    (required : List String) : Bool :=
  match lookup attrs arrayKey with
  | some (Value.vList (first :: _)) =>
    match first with
    | Value.vDict d => required.all (fun k => (findKey d [k]).isSome)
    | _ => false
  | _ => false

/-- The source-type tags `SOURCE_TYPE_EPEX_SPOT` and
`SOURCE_TYPE_ENERGI_DATA_SERVICE` from `const.py`. -/
inductive SourceType where
  | epexSpot
  | energiDataService
deriving DecidableEq, Repr

/-- The result of `analyze_sensor_shape`: detected type and human-readable
reason.  The `details` diagnostic mapping is not embedded; no claim under
verification inspects it.  Quote characters of the reason strings are
omitted from the embedded text. -/
structure ShapeResult where
  detectedType : Option SourceType
  reason : String
deriving DecidableEq, Repr

/-- `analyze_sensor_shape(attributes)` from `parsers.py`: strict priority
order over the two EPEX variants and then the hourly shape. -/
def analyzeSensorShape (attrs : Dict) : ShapeResult :=
  if hasArrayWithKeys attrs "data" ["start_time", "end_time", "price_per_kwh"] then
    ⟨some SourceType.epexSpot,
      "Found data array with start_time, end_time, price_per_kwh"⟩
  else if hasArrayWithKeys attrs "data" ["start_time", "end_time", "price"] then
    ⟨some SourceType.epexSpot,
      "Found data array with start_time, end_time, price"⟩
  else if hasArrayWithKeys attrs "raw_today" ["hour", "price"] then
    ⟨some SourceType.energiDataService,
      "Found raw_today array with hour, price"⟩
  else
    ⟨none, "No matching shape found"⟩

/-- `PriceEntry` from `parsers.py`. -/
structure PriceEntry where
  start_time : DT
  end_time : DT
  price : ℚ
deriving DecidableEq, Repr

/-- `ParsedPriceData` from `parsers.py`. -/
structure ParsedPriceData where
  today : List PriceEntry
  tomorrow : List PriceEntry
  current_price : Option ℚ
  tomorrow_valid : Bool
deriving DecidableEq, Repr

/-- `SourceParser._parse_datetime`: a `datetime` value is returned unchanged;
anything else is a per-element failure (strings are modelled as unparseable,
other types raise `ValueError`). -/
def parseDatetime : Value → Option DT
  | Value.vTime t => some t
  | _ => none

/-- `float(value)` as used on price fields: numbers convert exactly,
booleans to 0/1; anything else is a per-element failure (numeric strings are
modelled as unconvertible). -/
def parseFloat : Value → Option ℚ
  | Value.vNum q => some q
  | Value.vBool b => some (if b then 1 else 0)
  | _ => none

/-- Stable insertion of an entry after all existing entries with a
less-or-equal start, preserving arrival order among equal starts. -/
def insertByStart (e : PriceEntry) : List PriceEntry → List PriceEntry
  | [] => [e]
  | x :: xs =>
    if dtLe x.start_time e.start_time then x :: insertByStart e xs
    else e :: x :: xs

/-- `entries.sort(key=lambda x: x.start_time)`: stable ascending sort by
start time. -/
def sortByStart (l : List PriceEntry) : List PriceEntry :=
  l.foldl (fun acc e => insertByStart e acc) []

/-- The running `current_price` update of both parse loops: for each parsed
entry in order, if `start_time <= now < end_time` the price is recorded,
the last match winning.  The source interleaves this with entry collection
inside one loop; since each element parses independently, folding over the
already-collected entries computes the same value. -/
def currentPriceOf (entries : List PriceEntry) (now : DT) : Option ℚ :=
  entries.foldl
    (fun acc e =>
      if dtLe e.start_time now && dtLt now e.end_time then some e.price
      else acc)
    none

/-- The sequence a resolved attribute key yields for iteration:
`attributes.get(key, [])` followed by `for entry in ...`; a non-sequence
value raises on iteration and is modelled as empty. -/
def listOfValue : Option Value → List Value
  | some (Value.vList xs) => xs
  | _ => []

/-- `EpexSpotParser._get_data_key` candidates `(ATTR_DATA, "Data", "data")`
with `ATTR_DATA = "data"`, followed by the guarded `attributes.get`. -/
def epexDataList (attrs : Dict) : List Value :=
  match findKey attrs ["data", "Data", "data"] with
  | some k => listOfValue (lookup attrs k)
  | none => []

/-- One iteration of the `EpexSpotParser.parse_prices` loop body up to the
construction of the `PriceEntry`: tolerant key resolution on the entry,
then datetime and float conversion; any failure skips the element. -/
def epexParseEntry (entry : Value) : Option PriceEntry :=
  match entry with
  | Value.vDict d =>
    match findKey d ["start_time", "start_time"],
          findKey d ["end_time", "end_time"],
          findKey d ["price_per_kwh", "price_per_kwh", "price"] with
    | some sk, some ek, some pk =>
      match parseDatetime ((lookup d sk).getD Value.vNone),
            parseDatetime ((lookup d ek).getD Value.vNone),
            parseFloat ((lookup d pk).getD Value.vNone) with
      | some s, some e, some p => some ⟨s, e, p⟩
      | _, _, _ => none
    | _, _, _ => none
  | _ => none

/-- All successfully parsed EPEX entries, in source order. -/
def epexParsedEntries (attrs : Dict) : List PriceEntry :=
  (epexDataList attrs).filterMap epexParseEntry

/-- `EpexSpotParser.parse_prices(attributes)` with the ambient
`dt_util.now()` made an explicit argument: bucket by wall-clock date
(`today` on equality with the current date, else `tomorrow` on the next
date, else discarded), record the last entry containing `now` as the
current price, sort both buckets, and set `tomorrow_valid` from the
tomorrow bucket alone. -/
def epexParsePrices (attrs : Dict) (now : DT) : ParsedPriceData :=
  let todayStart := now.startOfDay
  let tomorrowStart := todayStart.addMinutes minutesPerDay
  let entries := epexParsedEntries attrs
  let todayEntries := entries.filter
    (fun e => e.start_time.date == todayStart.date)
  let tomorrowEntries := entries.filter
    (fun e => !(e.start_time.date == todayStart.date) &&
      e.start_time.date == tomorrowStart.date)
  { today := sortByStart todayEntries
    tomorrow := sortByStart tomorrowEntries
    current_price := currentPriceOf entries now
    tomorrow_valid := decide (0 < tomorrowEntries.length) }

/-- Shared head of both Energi Data Service loop bodies: resolve the
`hour` and `price` keys on the entry (`_find_key(entry, ATTR_HOUR, "hour")`
with `ATTR_HOUR = "hour"`, and likewise for price) and convert the values;
failure skips the element. -/
def edsParseEntryCore (entry : Value) : Option (DT × ℚ) :=
  match entry with
  | Value.vDict d =>
    match findKey d ["hour", "hour"], findKey d ["price", "price"] with
    | some hk, some pk =>
      match parseDatetime ((lookup d hk).getD Value.vNone),
            parseFloat ((lookup d pk).getD Value.vNone) with
      | some s, some p => some (s, p)
      | _, _ => none
    | _, _ => none
  | _ => none

/-- Hour extraction from a neighbouring raw element, three-valued:
`some (some t)` when the hour key resolves and converts, `some none` when
the hour key is absent (the 1-hour fallback applies), `none` when the key
resolves but the value does not convert or the element is not a mapping
(the exception skips the element under inference). -/
def neighborHour : Value → Option (Option DT)
  | Value.vDict d =>
    match findKey d ["hour", "hour"] with
    | none => some none
    | some hk =>
      match parseDatetime ((lookup d hk).getD Value.vNone) with
      | some t => some (some t)
      | none => none
  | _ => none

/-- End inference from the following raw element, shared by both buckets:
next element in range with a resolvable hour gives that hour; next element
without an hour key gives start plus one hour; an unconvertible next hour
skips the element. -/
def edsInferNext (raw : List Value) (i : Nat) (s : DT) : Option DT :=
  match neighborHour ((raw.get? (i + 1)).getD Value.vNone) with
  | some (some ns) => some ns
  | some none => some (s.addMinutes 60)
  | none => none

/-- End inference of the today loop of
`EnergiDataServiceParser.parse_prices`: following element first, then the
width back to the preceding element, then a fixed hour. -/
def edsTodayEnd (raw : List Value) (i : Nat) (s : DT) : Option DT :=
  if i + 1 < raw.length then edsInferNext raw i s
  else if 0 < i then
    match neighborHour ((raw.get? (i - 1)).getD Value.vNone) with
    | some (some ps) => some (s.addMinutes (DT.sub s ps))
    | some none => some (s.addMinutes 60)
    | none => none
  else some (s.addMinutes 60)

/-- End inference of the tomorrow loop of
`EnergiDataServiceParser.parse_prices`: following element first; for the
final element, the width between the first two already-collected today
entries when at least two exist, else a fixed hour. -/
def edsTomorrowEnd (raw : List Value) (todayEntries : List PriceEntry)
    (i : Nat) (s : DT) : Option DT :=
  if i + 1 < raw.length then edsInferNext raw i s
  else
    match todayEntries with
    | t0 :: t1 :: _ =>
      some (s.addMinutes (DT.sub t1.start_time t0.start_time))
    | _ => some (s.addMinutes 60)

/-- One iteration of the today loop over `raw_today`, by raw index. -/
def edsParseTodayEntry (raw : List Value) (i : Nat) : Option PriceEntry :=
  match (raw.get? i).bind edsParseEntryCore with
  | some (s, p) => (edsTodayEnd raw i s).map (fun e => ⟨s, e, p⟩)
  | none => none

/-- One iteration of the tomorrow loop over `raw_tomorrow`, by raw index;
`todayEntries` is the today bucket as collected (pre-sort). -/
def edsParseTomorrowEntry (raw : List Value) (todayEntries : List PriceEntry)
    (i : Nat) : Option PriceEntry :=
  match (raw.get? i).bind edsParseEntryCore with
  | some (s, p) => (edsTomorrowEnd raw todayEntries i s).map (fun e => ⟨s, e, p⟩)
  | none => none

/-- The collected today entries of the hourly parser, in raw order. -/
def edsTodayEntriesOf (raw : List Value) : List PriceEntry :=
  (List.range raw.length).filterMap (edsParseTodayEntry raw)

/-- The collected tomorrow entries of the hourly parser, in raw order. -/
def edsTomorrowEntriesOf (raw : List Value) (todayEntries : List PriceEntry) :
    List PriceEntry :=
  (List.range raw.length).filterMap (edsParseTomorrowEntry raw todayEntries)

/-- `EnergiDataServiceParser._get_raw_today_key` candidates
`(ATTR_RAW_TODAY, "raw_today", "Raw today", "raw today")` with
`ATTR_RAW_TODAY = "raw_today"`, plus the guarded `attributes.get`. -/
def edsRawToday (attrs : Dict) : List Value :=
  match findKey attrs ["raw_today", "raw_today", "Raw today", "raw today"] with
  | some k => listOfValue (lookup attrs k)
  | none => []

/-- `EnergiDataServiceParser._get_raw_tomorrow_key` candidates, plus the
guarded `attributes.get`. -/
def edsRawTomorrow (attrs : Dict) : List Value :=
  match findKey attrs
      ["raw_tomorrow", "raw_tomorrow", "Raw tomorrow", "raw tomorrow"] with
  | some k => listOfValue (lookup attrs k)
  | none => []

/-- The upstream `tomorrow_valid` flag: resolved tolerantly, defaulting to
false, read by Python truthiness. -/
def edsTomorrowValidRaw (attrs : Dict) : Bool :=
  match findKey attrs ["tomorrow_valid", "tomorrow_valid"] with
  | some k => truthy ((lookup attrs k).getD (Value.vBool false))
  | none => false

/-- `EnergiDataServiceParser.parse_prices(attributes)` with the ambient
`dt_util.now()` made an explicit argument.  Every parsed `raw_today`
element joins the today bucket and feeds the current-price check; the
tomorrow bucket gets the parsed `raw_tomorrow` elements; both buckets are
sorted; `tomorrow_valid` is the upstream flag and a non-empty tomorrow
bucket. -/
def energiParsePrices (attrs : Dict) (now : DT) : ParsedPriceData :=
  let rawToday := edsRawToday attrs
  let rawTomorrow := edsRawTomorrow attrs
  let todayEntries := edsTodayEntriesOf rawToday
  let tomorrowEntries := edsTomorrowEntriesOf rawTomorrow todayEntries
  { today := sortByStart todayEntries
    tomorrow := sortByStart tomorrowEntries
    current_price := currentPriceOf todayEntries now
    tomorrow_valid := edsTomorrowValidRaw attrs &&
      decide (0 < tomorrowEntries.length) }

/-- The shape-dispatch of `get_parser_for_attributes` followed by the
selected `parse_prices`: the whole classify-then-parse cycle as one
function of the attribute snapshot and the current instant. -/
def runPipeline (attrs : Dict) (now : DT) : Option ParsedPriceData :=
  match (analyzeSensorShape attrs).detectedType with
  | some SourceType.epexSpot => some (epexParsePrices attrs now)
  | some SourceType.energiDataService => some (energiParsePrices attrs now)
  | none => none

/-- `CostParameters` from `calculations.py`: the ten named decimal fields. -/
structure CostParameters where
  consumption_multiplier : ℚ
  supplier_cost : ℚ
  injection_multiplier : ℚ
  injection_deduction : ℚ
  green_certificates : ℚ
  chp_certificates : ℚ
  distribution_cost : ℚ
  energy_contribution : ℚ
  excise_tax : ℚ
  vat_rate : ℚ
deriving DecidableEq, Repr

/-- The `DEFAULT_*` values of `const.py`, as exact decimals. -/
def defaultCostParameters : CostParameters :=
  { consumption_multiplier := 1.02
    supplier_cost := 0.004
    injection_multiplier := 0.98
    injection_deduction := 0.015
    green_certificates := 0.011
    chp_certificates := 0.0039
    distribution_cost := 0.0589
    energy_contribution := 0.0019
    excise_tax := 0.0475
    vat_rate := 6 }

/-- Round-half-to-even to an integer, the behaviour of Python `round`. -/
def roundHalfEven (q : ℚ) : Int :=
  let f := ⌊q⌋
  let frac := q - (f : ℚ)
  if frac < 1 / 2 then f
  else if 1 / 2 < frac then f + 1
  else if f % 2 == 0 then f else f + 1

/-- Python `round(x, 4)` on the modelled exact values. -/
def pyRound4 (q : ℚ) : ℚ := (roundHalfEven (q * 10000) : ℚ) / 10000

/-- `calculate_consumption_price(market_price, params)` from
`calculations.py`. -/
def calculate_consumption_price (market_price : ℚ)
    (params : CostParameters) : ℚ :=
  let base := market_price * params.consumption_multiplier
  let total_costs :=
    params.supplier_cost
      + params.green_certificates
      + params.chp_certificates
      + params.distribution_cost
      + params.energy_contribution
      + params.excise_tax
  let vat_multiplier := 1 + params.vat_rate / 100
  pyRound4 ((base + total_costs) * vat_multiplier)

/-- `calculate_injection_price(market_price, params)` from
`calculations.py`. -/
def calculate_injection_price (market_price : ℚ)
    (params : CostParameters) : ℚ :=
  pyRound4 (market_price * params.injection_multiplier
    - params.injection_deduction)

/-- One record of the detailed `data` serialization of
`_calculate_price_data` (the source builds `CalculatedPriceEntry` values
and re-serializes them to mappings with the same three fields; the record
carries exactly those fields). -/
structure CalculatedPriceEntry where
  start_time : String
  end_time : String
  price_per_kwh : ℚ
deriving DecidableEq, Repr

/-- One record of the simplified `raw_today`/`raw_tomorrow` serialization:
`{"hour": ..., "price": ...}`. -/
structure HourRecord where
  hour : String
  price : ℚ
deriving DecidableEq, Repr

/-- `CalculatedPriceData` from `calculations.py`; list-valued fields are
`None` rather than empty, matching the `if xs else None` guards. -/
structure CalculatedPriceData where
  current_price : Option ℚ
  data : Option (List CalculatedPriceEntry)
  raw_today : Option (List HourRecord)
  raw_tomorrow : Option (List HourRecord)
  today : Option (List ℚ)
  tomorrow : Option (List ℚ)
  today_min : Option ℚ
  today_max : Option ℚ
  today_mean : Option ℚ
  tomorrow_min : Option ℚ
  tomorrow_max : Option ℚ
  tomorrow_mean : Option ℚ
  tomorrow_valid : Bool
deriving DecidableEq, Repr

/-- `min(prices)` of a price list, absent when empty. -/
def listMin : List ℚ → Option ℚ
  | [] => none
  | x :: xs => some (xs.foldl min x)

/-- `max(prices)` of a price list, absent when empty. -/
def listMax : List ℚ → Option ℚ
  | [] => none
  | x :: xs => some (xs.foldl max x)

/-- `round(mean(prices), 4)` of a price list, absent when empty. -/
def listMean (xs : List ℚ) : Option ℚ :=
  match xs with
  | [] => none
  | _ => some (pyRound4 (xs.sum / (xs.length : ℚ)))

/-- `_calculate_price_data(parsed_data, params, price_func)` from
`calculations.py`: transform the current price and every interval of both
buckets with `price_func`, build the detailed and simplified
serializations, and compute per-bucket statistics from the transformed
values. -/
def calculatePriceData (parsed : ParsedPriceData) (params : CostParameters)
    (priceFunc : ℚ → CostParameters → ℚ) : CalculatedPriceData :=
  let todayPrices := parsed.today.map (fun e => priceFunc e.price params)
  let todayData := parsed.today.map (fun e =>
    CalculatedPriceEntry.mk e.start_time.isoformat e.end_time.isoformat
      (priceFunc e.price params))
  let todayRaw := parsed.today.map (fun e =>
    HourRecord.mk e.start_time.isoformat (priceFunc e.price params))
  let tomorrowPrices := parsed.tomorrow.map (fun e => priceFunc e.price params)
  let tomorrowData := parsed.tomorrow.map (fun e =>
    CalculatedPriceEntry.mk e.start_time.isoformat e.end_time.isoformat
      (priceFunc e.price params))
  let tomorrowRaw := parsed.tomorrow.map (fun e =>
    HourRecord.mk e.start_time.isoformat (priceFunc e.price params))
  let allData := todayData ++ tomorrowData
  { current_price := parsed.current_price.map (fun p => priceFunc p params)
    data := if allData.isEmpty then none else some allData
    raw_today := if todayRaw.isEmpty then none else some todayRaw
    raw_tomorrow := if tomorrowRaw.isEmpty then none else some tomorrowRaw
    today := if todayPrices.isEmpty then none else some todayPrices
    tomorrow := if tomorrowPrices.isEmpty then none else some tomorrowPrices
    today_min := listMin todayPrices
    today_max := listMax todayPrices
    today_mean := listMean todayPrices
    tomorrow_min := listMin tomorrowPrices
    tomorrow_max := listMax tomorrowPrices
    tomorrow_mean := listMean tomorrowPrices
    tomorrow_valid := parsed.tomorrow_valid }

/-- `calculate_all_prices(parsed_data, params)` from `calculations.py`. -/
def calculate_all_prices (parsed : ParsedPriceData)
    (params : CostParameters) :
    CalculatedPriceData × CalculatedPriceData :=
  (calculatePriceData parsed params calculate_consumption_price,
    calculatePriceData parsed params calculate_injection_price)

/-- The parsed hour instant of the raw element at an index, when the element
is a mapping whose resolved hour value converts. -/
def hourAt (raw : List Value) (i : Nat) : Option DT :=
  match raw.get? i with
  | some v =>
    match neighborHour v with
    | some (some t) => some t
    | _ => none
  | none => none

/-- Strictly increasing parsed hour instants along a raw bucket: a decidable
well-ordering hypothesis on source data for the end-inference analysis. -/
def hourIncreasingB (raw : List Value) : Bool :=
  (List.range raw.length).all (fun i =>
    (List.range raw.length).all (fun j =>
      if i < j then
        match hourAt raw i, hourAt raw j with
        | some ti, some tj => dtLt ti tj
        | _, _ => true
      else true))

/-- Everything of a `CalculatedPriceData` except price values and the
statistics derived from them: the serialized interval bounds of the
detailed list, the hour fields of the simplified lists, the per-bucket
price counts, and the validity flag. -/
def framePart (c : CalculatedPriceData) :
    Option (List (String × String)) × Option (List String) ×
      Option (List String) × Option Nat × Option Nat × Bool :=
  (c.data.map (fun l => l.map (fun r => (r.start_time, r.end_time))),
    c.raw_today.map (fun l => l.map (fun r => r.hour)),
    c.raw_tomorrow.map (fun l => l.map (fun r => r.hour)),
    c.today.map List.length,
    c.tomorrow.map List.length,
    c.tomorrow_valid)

/-! Concrete inputs used by the per-claim counterexamples and witnesses.
All datetimes carry a fixed +01:00 offset (60 minutes); wall clocks are
minutes from an arbitrary epoch midnight, so day 0 spans walls 0..1439 and
day 1 spans 1440..2879. -/

/-- Hourly raw element: a mapping with an hour datetime and a price. -/
def mkHourEntry (wall : Int) (price : ℚ) : Value :=
  Value.vDict [("hour", Value.vTime ⟨wall, 60⟩), ("price", Value.vNum price)]

/-- EPEX raw element with a `price_per_kwh` field. -/
def mkEpexEntry (startWall endWall : Int) (price : ℚ) : Value :=
  Value.vDict
    [("start_time", Value.vTime ⟨startWall, 60⟩),
      ("end_time", Value.vTime ⟨endWall, 60⟩),
      ("price_per_kwh", Value.vNum price)]

/-- Tomorrow bucket of the claim 1 counterexample: two elements spaced two
hours apart on day 1. -/
def c1RawTomorrow : List Value := [mkHourEntry 1440 3, mkHourEntry 1560 4]

/-- Claim 1 counterexample attributes: today spaced one hour, tomorrow
spaced two hours, so the propagated-width prediction and the today-width
fallback disagree on the last tomorrow element. -/
def c1Attrs : Dict :=
  [("raw_today", Value.vList [mkHourEntry 0 1, mkHourEntry 60 2]),
    ("raw_tomorrow", Value.vList c1RawTomorrow),
    ("tomorrow_valid", Value.vBool true)]

/-- Current instant for the hourly examples: 00:30 on day 0. -/
def c1Now : DT := ⟨30, 60⟩

/-- The today bucket as collected from the claim 1 counterexample input. -/
def c1TodayEntries : List PriceEntry :=
  [⟨⟨0, 60⟩, ⟨60, 60⟩, 1⟩, ⟨⟨60, 60⟩, ⟨120, 60⟩, 2⟩]

/-- First element of the claim 2 counterexample array. -/
def c2First : List (String × Value) :=
  [("start_time", Value.vTime ⟨0, 60⟩),
    ("end_time", Value.vTime ⟨60, 60⟩),
    ("price", Value.vNum 1)]

/-- Claim 2 counterexample attributes: the only array field is the case
variant `Data`, with a fully resolvable first element. -/
def c2Attrs : Dict := [("Data", Value.vList [Value.vDict c2First])]

/-- A verbatim-keyed EPEX attribute mapping (claim 2 witness). -/
def c2AttrsGood : Dict := [("data", Value.vList [mkEpexEntry 0 60 1])]

/-- A verbatim-keyed hourly attribute mapping (claim 2 witness). -/
def c2AttrsHourly : Dict := [("raw_today", Value.vList [mkHourEntry 0 1])]

/-- Claim 3 counterexample attributes: one EPEX entry spanning midnight,
starting on the previous day. -/
def c3Attrs : Dict :=
  [("data", Value.vList [mkEpexEntry 1380 1500 5])]

/-- Current instant for the claim 3 counterexample: 00:30 on day 1, inside
the midnight-spanning entry. -/
def c3Now : DT := ⟨1470, 60⟩

/-- Claim 3 witness attributes: hourly input whose single element contains
the current instant, and one EPEX entry containing it as well. -/
def c3WAttrs : Dict :=
  [("raw_today", Value.vList [mkHourEntry 0 5]),
    ("data", Value.vList [mkEpexEntry 0 60 5])]

/-- Current instant for the claim 3 witness: 00:30 on day 0. -/
def c3WNow : DT := ⟨30, 60⟩

/-- Claim 4 attributes: the two-element single-hour-spacing scenario of the
specification. -/
def c4Attrs : Dict :=
  [("raw_today", Value.vList [mkHourEntry 0 1, mkHourEntry 60 2])]

/-- Claim 4 singleton-bucket attributes for the fixed fallback rule. -/
def c4SingleAttrs : Dict := [("raw_today", Value.vList [mkHourEntry 0 1])]

/-- Claim 6 counterexample attributes: one EPEX entry on the current day
whose end precedes its start. -/
def c6Attrs : Dict := [("data", Value.vList [mkEpexEntry 1740 1680 7])]

/-- Current instant for the claim 6 counterexample: 00:30 on day 1. -/
def c6Now : DT := ⟨1470, 60⟩

/-- Claim 6 witness attributes: a well-formed EPEX array and strictly
increasing hourly buckets in one mapping. -/
def c6WAttrs : Dict :=
  [("data", Value.vList [mkEpexEntry 1500 1560 2]),
    ("raw_today", Value.vList [mkHourEntry 1440 1, mkHourEntry 1500 2]),
    ("raw_tomorrow", Value.vList [mkHourEntry 2880 3])]

/-- Claim 7 counterexample attributes: the earlier key matches only with
spaces as underscores, the later key matches case-insensitively. -/
def c7Attrs : Dict :=
  [("raw today", Value.vNum 1), ("RAW_TODAY", Value.vNum 2)]

/-- Claim 8 witness attributes: a valid EPEX array and a valid hourly array
in the same mapping. -/
def c8Attrs : Dict :=
  [("data", Value.vList [mkEpexEntry 0 60 1]),
    ("raw_today", Value.vList [mkHourEntry 0 1])]

/-- Claim 9 witness attributes. -/
def c9Attrs : Dict := [("data", Value.vList [mkEpexEntry 0 60 1])]

/-- Claim 9 witness instant. -/
def c9Now : DT := ⟨30, 60⟩

/-! Helper lemmas. -/

theorem instant_addMinutes (t : DT) (d : Int) :
    (t.addMinutes d).instant = t.instant + d := by
  simp only [DT.addMinutes, DT.instant]
  omega

theorem dtLt_addMinutes_pos (s : DT) (d : Int) (hd : 0 < d) :
    dtLt s (s.addMinutes d) = true := by
  simp only [dtLt, instant_addMinutes, decide_eq_true_eq]
  omega

theorem mem_insertByStart (e a : PriceEntry) :
    ∀ l, a ∈ insertByStart e l ↔ a = e ∨ a ∈ l := by
  intro l
  induction l with
  | nil => simp [insertByStart]
  | cons x xs ih =>
    simp only [insertByStart]
    split
    · simp only [List.mem_cons, ih]
      try tauto
    · simp only [List.mem_cons]
      try tauto

theorem mem_sortFold (a : PriceEntry) :
    ∀ (l : List PriceEntry) (acc : List PriceEntry),
      a ∈ l.foldl (fun acc e => insertByStart e acc) acc ↔ a ∈ acc ∨ a ∈ l := by
  intro l
  induction l with
  | nil => simp
  | cons e l ih =>
    intro acc
    rw [List.foldl_cons, ih, mem_insertByStart]
    simp only [List.mem_cons]
    tauto

theorem mem_sortByStart (a : PriceEntry) (l : List PriceEntry) :
    a ∈ sortByStart l ↔ a ∈ l := by
  rw [sortByStart, mem_sortFold]
  simp

theorem currentPriceOf_aux (now : DT) (p : ℚ) :
    ∀ (l : List PriceEntry) (acc : Option ℚ),
      l.foldl
          (fun acc e =>
            if dtLe e.start_time now && dtLt now e.end_time then some e.price
            else acc)
          acc = some p →
      (∃ e, e ∈ l ∧ dtLe e.start_time now = true ∧ dtLt now e.end_time = true ∧
        e.price = p) ∨ acc = some p := by
  intro l
  induction l with
  | nil =>
    intro acc h
    right
    simpa using h
  | cons e l ih =>
    intro acc h
    rw [List.foldl_cons] at h
    rcases ih _ h with h1 | h2
    · obtain ⟨x, hx, h3⟩ := h1
      exact Or.inl ⟨x, List.mem_cons_of_mem _ hx, h3⟩
    · by_cases hc : (dtLe e.start_time now && dtLt now e.end_time) = true
      · rw [if_pos hc] at h2
        rw [Bool.and_eq_true] at hc
        exact Or.inl ⟨e, List.mem_cons_self e l, hc.1, hc.2, Option.some.inj h2⟩
      · rw [if_neg hc] at h2
        exact Or.inr h2

theorem currentPriceOf_some (l : List PriceEntry) (now : DT) (p : ℚ)
    (h : currentPriceOf l now = some p) :
    ∃ e, e ∈ l ∧ dtLe e.start_time now = true ∧ dtLt now e.end_time = true ∧
      e.price = p := by
  rcases currentPriceOf_aux now p l none h with h1 | h2
  · exact h1
  · simp at h2

theorem hasKey_of_lookup (attrs : Dict) (k : String) (v : Value)
    (h : lookup attrs k = some v) : hasKey attrs k = true := by
  rw [lookup, Option.map_eq_some'] at h
  obtain ⟨pr, hfind, _⟩ := h
  rw [hasKey, List.any_eq_true]
  have h1 : pr ∈ attrs := List.mem_of_find?_eq_some hfind
  have h2 := List.find?_some hfind
  exact ⟨pr, h1, by simpa using h2⟩

theorem hasKey_of_hasArray (attrs : Dict) (ak : String) (req : List String)
    (h : hasArrayWithKeys attrs ak req = true) : hasKey attrs ak = true := by
  rw [hasArrayWithKeys] at h
  cases hl : lookup attrs ak with
  | none => rw [hl] at h; simp at h
  | some v => exact hasKey_of_lookup _ _ _ hl

/-- Claim C1 counterexample: with today elements one hour apart and
tomorrow elements two hours apart, the parse gives the last tomorrow
element the today-width end (one hour), not the end predicted by the
preceding-element width-propagation rule (two hours), even though the
tomorrow bucket holds two successfully parsed elements. -/
theorem claim1_counterexample :
    (energiParsePrices c1Attrs c1Now).tomorrow.map
        (fun e => (e.start_time, e.end_time)) =
      [((⟨1440, 60⟩ : DT), (⟨1560, 60⟩ : DT)),
        ((⟨1560, 60⟩ : DT), (⟨1620, 60⟩ : DT))] ∧
    (⟨1620, 60⟩ : DT) ≠
      DT.addMinutes ⟨1560, 60⟩ (DT.sub (⟨1560, 60⟩ : DT) ⟨1440, 60⟩) := by
  decide

/-- Claim C2 counterexample: a mapping whose only array field is the case
variant `Data`, with a first element whose start, end and price keys all
resolve, is classified as unknown (detected type none), not as EPEX-like,
although the key resolver would resolve `data` to `Data`. -/
theorem claim2_counterexample :
    findKey c2Attrs ["data"] = some "Data" ∧
    hasArrayWithKeys c2Attrs "Data" ["start_time", "end_time", "price"] = true ∧
    (findKey c2First ["start_time"]).isSome = true ∧
    (findKey c2First ["end_time"]).isSome = true ∧
    (findKey c2First ["price"]).isSome = true ∧
    (analyzeSensorShape c2Attrs).detectedType = none := by
  decide

/-- Claim C3 counterexample: an EPEX entry spanning midnight that starts on
the previous calendar day contains the current instant, so its price
becomes the current price, yet the entry lands in neither bucket and the
today bucket is empty. -/
theorem claim3_counterexample :
    (epexParsePrices c3Attrs c3Now).current_price = some 5 ∧
    (epexParsePrices c3Attrs c3Now).today = [] := by
  decide

/-- Claim C4: hourly-like end inference on the specification scenario.  For
two elements one hour apart the first end is the next start and the second
end is start plus the propagated width; a singleton bucket gets the fixed
one-hour fallback. -/
theorem claim4_theorem :
    (energiParsePrices c4Attrs c1Now).today.map
        (fun e => (e.start_time, e.end_time)) =
      [((⟨0, 60⟩ : DT), (⟨60, 60⟩ : DT)),
        ((⟨60, 60⟩ : DT), (⟨120, 60⟩ : DT))] ∧
    (energiParsePrices c4SingleAttrs c1Now).today.map
        (fun e => (e.start_time, e.end_time)) =
      [((⟨0, 60⟩ : DT), (⟨60, 60⟩ : DT))] := by
  decide

/-- Claim C5: the consumption price is the rounded VAT-multiplied sum of the
multiplied market price and the six fixed cost fields, the injection price
is the rounded multiplied market price minus the deduction, and at the
default parameters with market price 0.10 the two prices take the values
the specification states. -/
theorem claim5_theorem :
    (∀ (p : ℚ) (params : CostParameters),
      calculate_consumption_price p params =
        pyRound4 ((p * params.consumption_multiplier + params.supplier_cost +
          params.green_certificates + params.chp_certificates +
          params.distribution_cost + params.energy_contribution +
          params.excise_tax) * (1 + params.vat_rate / 100))) ∧
    (∀ (p : ℚ) (params : CostParameters),
      calculate_injection_price p params =
        pyRound4 (p * params.injection_multiplier -
          params.injection_deduction)) ∧
    calculate_consumption_price 0.10 defaultCostParameters =
      pyRound4 ((0.10 * 1.02 +
        (0.004 + 0.011 + 0.0039 + 0.0589 + 0.0019 + 0.0475)) * 1.06) ∧
    calculate_injection_price 0.10 defaultCostParameters = 0.0830 := by
  have hgen : ∀ (p : ℚ) (params : CostParameters),
      calculate_consumption_price p params =
        pyRound4 ((p * params.consumption_multiplier + params.supplier_cost +
          params.green_certificates + params.chp_certificates +
          params.distribution_cost + params.energy_contribution +
          params.excise_tax) * (1 + params.vat_rate / 100)) :=
    fun p params => congrArg pyRound4 (by ring)
  refine ⟨hgen, fun p params => rfl, ?_, ?_⟩
  · rw [hgen]
    exact congrArg pyRound4 (by norm_num [defaultCostParameters])
  · have h : ((0.10 : ℚ) * defaultCostParameters.injection_multiplier -
        defaultCostParameters.injection_deduction) * 10000 = 830 := by
      norm_num [defaultCostParameters]
    have hf : ⌊(830 : ℚ)⌋ = 830 := by norm_num [Int.floor_intCast]
    simp only [calculate_injection_price, pyRound4, roundHalfEven, h]
    norm_num [Int.floor_intCast]

/-- Claim C6 counterexample: an EPEX entry whose end precedes its start on
the current day is appended to the today bucket unchanged; the constructed
interval violates start < end. -/
theorem claim6_counterexample :
    (epexParsePrices c6Attrs c6Now).today =
      [⟨⟨1740, 60⟩, ⟨1680, 60⟩, 7⟩] ∧
    dtLt (⟨1740, 60⟩ : DT) ⟨1680, 60⟩ = false := by
  decide

/-- Claim C7 counterexample: with an earlier key matching the candidate only
after replacing spaces with underscores and a later key matching it
case-insensitively, the resolver returns the earlier space-matching key,
not the case-insensitively matching one, because the two tolerant checks
run interleaved in a single scan. -/
theorem claim7_counterexample :
    findKey c7Attrs ["raw_today"] = some "raw today" ∧
    "raw today" ≠ "RAW_TODAY" ∧
    lowerStr "RAW_TODAY" = "raw_today" ∧
    lowerStr "raw today" ≠ "raw_today" := by
  decide

/-- Claim C9: determinism of the classify-then-parse pipeline.  The outcome
is a pure function of the attribute snapshot and the current instant
(`dt_util.now()` is modelled as the explicit instant argument): equal
inputs give bit-identical classifications and parse results. -/
theorem claim9_theorem :
    ∀ (a1 a2 : Dict) (n1 n2 : DT), a1 = a2 → n1 = n2 →
      analyzeSensorShape a1 = analyzeSensorShape a2 ∧
        runPipeline a1 n1 = runPipeline a2 n2 := by
  intro a1 a2 n1 n2 ha hn
  subst ha
  subst hn
  exact ⟨rfl, rfl⟩

/-- Claim C9 witness: the pipeline applied twice to the same snapshot and
instant. -/
theorem claim9_witness :
    analyzeSensorShape c9Attrs = analyzeSensorShape c9Attrs ∧
      runPipeline c9Attrs c9Now = runPipeline c9Attrs c9Now :=
  claim9_theorem c9Attrs c9Attrs c9Now c9Now rfl rfl

/-- Claim C2 as amended: classification resolves the top-level array field
verbatim only — EPEX-like needs the exact key `data` and hourly-like the
exact key `raw_today`; only the keys of the first array element are matched
tolerantly.  A mapping without the exact `data` key is never EPEX-like and
one without the exact `raw_today` key is never hourly-like, while a
verbatim-keyed array whose first element resolves the required keys
(tolerantly) classifies as stated. -/
theorem claim2_theorem :
    (∀ attrs : Dict, hasKey attrs "data" = false →
      (analyzeSensorShape attrs).detectedType ≠ some SourceType.epexSpot) ∧
    (∀ attrs : Dict, hasKey attrs "raw_today" = false →
      (analyzeSensorShape attrs).detectedType ≠
        some SourceType.energiDataService) ∧
    (∀ attrs : Dict,
      (hasArrayWithKeys attrs "data" ["start_time", "end_time", "price_per_kwh"] ||
        hasArrayWithKeys attrs "data" ["start_time", "end_time", "price"]) = true →
      (analyzeSensorShape attrs).detectedType = some SourceType.epexSpot) ∧
    (∀ attrs : Dict,
      hasArrayWithKeys attrs "data" ["start_time", "end_time", "price_per_kwh"] = false →
      hasArrayWithKeys attrs "data" ["start_time", "end_time", "price"] = false →
      hasArrayWithKeys attrs "raw_today" ["hour", "price"] = true →
      (analyzeSensorShape attrs).detectedType =
        some SourceType.energiDataService) := by
  refine ⟨?_, ?_, ?_, ?_⟩
  · intro attrs hk hdet
    have hda : ∀ req, hasArrayWithKeys attrs "data" req = false := by
      intro req
      cases hh : hasArrayWithKeys attrs "data" req with
      | false => rfl
      | true =>
        rw [hasKey_of_hasArray attrs "data" req hh] at hk
        exact Bool.noConfusion hk
    unfold analyzeSensorShape at hdet
    rw [hda, hda] at hdet
    simp only [Bool.false_eq_true, if_false] at hdet
    split at hdet <;> simp at hdet
  · intro attrs hk hdet
    have hrt : hasArrayWithKeys attrs "raw_today" ["hour", "price"] = false := by
      cases hh : hasArrayWithKeys attrs "raw_today" ["hour", "price"] with
      | false => rfl
      | true =>
        rw [hasKey_of_hasArray attrs "raw_today" _ hh] at hk
        exact Bool.noConfusion hk
    unfold analyzeSensorShape at hdet
    rw [hrt] at hdet
    split at hdet
    · simp at hdet
    · split at hdet
      · simp at hdet
      · simp at hdet
  · intro attrs h
    unfold analyzeSensorShape
    cases hh1 : hasArrayWithKeys attrs "data" ["start_time", "end_time", "price_per_kwh"] with
    | true => simp [hh1]
    | false =>
      have h2 : hasArrayWithKeys attrs "data" ["start_time", "end_time", "price"] = true := by
        rw [hh1] at h
        simpa using h
      simp [hh1, h2]
  · intro attrs h1 h2 h3
    unfold analyzeSensorShape
    simp [h1, h2, h3]

/-- Claim C2 witness: the amended statement at concrete inputs — the
case-variant mapping is not EPEX-like, and the verbatim-keyed mappings
classify as EPEX-like and hourly-like. -/
theorem claim2_witness :
    ((analyzeSensorShape c2Attrs).detectedType ≠ some SourceType.epexSpot) ∧
    ((analyzeSensorShape c2AttrsGood).detectedType = some SourceType.epexSpot) ∧
    ((analyzeSensorShape c2AttrsHourly).detectedType =
      some SourceType.energiDataService) :=
  ⟨claim2_theorem.1 c2Attrs (by decide),
    claim2_theorem.2.2.1 c2AttrsGood (by decide),
    claim2_theorem.2.2.2 c2AttrsHourly (by decide) (by decide) (by decide)⟩

/-- Claim C8: shape-detection priority.  Any attribute mapping that passes
the EPEX `data` array check (either price-key variant) and also passes the
hourly `raw_today` array check classifies as EPEX-like: the EPEX rule is
checked first and the first match wins. -/
theorem claim8_theorem :
    ∀ attrs : Dict,
      (hasArrayWithKeys attrs "data" ["start_time", "end_time", "price_per_kwh"] ||
        hasArrayWithKeys attrs "data" ["start_time", "end_time", "price"]) = true →
      hasArrayWithKeys attrs "raw_today" ["hour", "price"] = true →
      (analyzeSensorShape attrs).detectedType = some SourceType.epexSpot := by
  intro attrs h hrt
  unfold analyzeSensorShape
  cases hh1 : hasArrayWithKeys attrs "data" ["start_time", "end_time", "price_per_kwh"] with
  | true => simp [hh1]
  | false =>
    have h2 : hasArrayWithKeys attrs "data" ["start_time", "end_time", "price"] = true := by
      rw [hh1] at h
      simpa using h
    simp [hh1, h2]

/-- Claim C8 witness: a mapping with both a valid `data` array and a valid
`raw_today` array classifies as EPEX-like. -/
theorem claim8_witness :
    (analyzeSensorShape c8Attrs).detectedType = some SourceType.epexSpot :=
  claim8_theorem c8Attrs (by decide) (by decide)

theorem findKeyScan_eq_none (attrs : Dict) (k : String) :
    findKeyScan attrs k = none ↔ ∀ p ∈ attrs, keyMatches p.1 k = false := by
  rw [findKeyScan, Option.map_eq_none', List.find?_eq_none]
  constructor
  · intro h p hp
    have := h p hp
    simpa [Bool.not_eq_true] using this
  · intro h p hp
    simp [h p hp]

theorem find?_append_of_none {α : Type} (p : α → Bool) :
    ∀ (pre l : List α), (∀ q ∈ pre, p q = false) →
      List.find? p (pre ++ l) = List.find? p l := by
  intro pre
  induction pre with
  | nil => intro l _; rfl
  | cons q pre ih =>
    intro l h
    rw [List.cons_append, List.find?_cons_of_neg]
    · exact ih l (fun x hx => h x (List.mem_cons_of_mem _ hx))
    · simp [h q (List.mem_cons_self q pre)]

/-- Claim C7 as amended: `resolve` never raises and returns absent exactly
when no candidate matches verbatim, case-insensitively, or with spaces as
underscores; but the case-insensitive and space-as-underscore checks run
interleaved in one scan over the actual keys in insertion order, so the
first actual key matching either tolerant rule is returned — an earlier
space-matching key wins over a later case-insensitively matching key. -/
theorem claim7_theorem :
    (∀ (attrs : Dict) (ks : List String),
      findKey attrs ks = none ↔
        ∀ k ∈ ks, hasKey attrs k = false ∧
          ∀ p ∈ attrs, keyMatches p.1 k = false) ∧
    (∀ (pre post : Dict) (ak : String) (v : Value) (k : String),
      (∀ q ∈ pre, keyMatches q.1 k = false) →
      keyMatches ak k = true →
      hasKey (pre ++ (ak, v) :: post) k = false →
      findKey (pre ++ (ak, v) :: post) [k] = some ak) := by
  constructor
  · intro attrs ks
    induction ks with
    | nil => simp [findKey]
    | cons k ks ih =>
      simp only [findKey]
      cases hk : hasKey attrs k with
      | true =>
        rw [if_pos rfl]
        constructor
        · intro h; exact Option.noConfusion h
        · intro h
          have hcontra := (h k (List.mem_cons_self k ks)).1
          rw [hk] at hcontra
          exact Bool.noConfusion hcontra
      | false =>
        rw [if_neg (by simp)]
        cases hs : findKeyScan attrs k with
        | some ak =>
          constructor
          · intro h; exact Option.noConfusion h
          · intro h
            rw [findKeyScan, Option.map_eq_some'] at hs
            obtain ⟨pr, hfind, hak⟩ := hs
            have hmem := List.mem_of_find?_eq_some hfind
            have hmatch : keyMatches pr.1 k = true := by
              simpa using List.find?_some hfind
            have hfalse := (h k (List.mem_cons_self k ks)).2 pr hmem
            rw [hfalse] at hmatch
            exact Bool.noConfusion hmatch
        | none =>
          rw [ih]
          constructor
          · intro h k2 hk2
            rcases List.mem_cons.mp hk2 with heq | hmem
            · subst heq
              exact ⟨hk, (findKeyScan_eq_none attrs _).mp hs⟩
            · exact h k2 hmem
          · intro h k2 hk2
            exact h k2 (List.mem_cons_of_mem _ hk2)
  · intro pre post ak v k hpre hak hnk
    have hscan : findKeyScan (pre ++ (ak, v) :: post) k = some ak := by
      rw [findKeyScan, find?_append_of_none _ pre _ (fun q hq => hpre q hq)]
      rw [List.find?_cons_of_pos]
      · rfl
      · simpa using hak
    simp only [findKey, hnk, hscan]
    simp

/-- Claim C7 witness: the amended statement at a concrete mapping whose
first key matches the candidate only with spaces as underscores while a
later key matches case-insensitively; the first key is returned. -/
theorem claim7_witness :
    findKey [("raw today", Value.vNum 1), ("RAW_TODAY", Value.vNum 2)]
        ["raw_today"] = some "raw today" :=
  claim7_theorem.2 [] [("RAW_TODAY", Value.vNum 2)] "raw today"
    (Value.vNum 1) "raw_today" (by simp) (by decide) (by decide)

theorem hourIncreasing_lt (raw : List Value) (H : hourIncreasingB raw = true)
    {i j : Nat} {ti tj : DT} (hij : i < j) (hj : j < raw.length)
    (hi : hourAt raw i = some ti) (hjt : hourAt raw j = some tj) :
    dtLt ti tj = true := by
  have hi2 : i < raw.length := Nat.lt_trans hij hj
  rw [hourIncreasingB, List.all_eq_true] at H
  have H1 := H i (List.mem_range.mpr hi2)
  rw [List.all_eq_true] at H1
  have H2 := H1 j (List.mem_range.mpr hj)
  rw [if_pos hij] at H2
  simp only [hi, hjt] at H2
  exact H2

theorem get?_some_of_lt {α : Type} (l : List α) (i : Nat) (h : i < l.length) :
    ∃ v, l.get? i = some v := by
  cases hv : l.get? i with
  | none => exact absurd (List.get?_eq_none.mp hv) (Nat.not_le_of_lt h)
  | some v => exact ⟨v, rfl⟩

theorem hourAt_of_core (raw : List Value) (i : Nat) (s : DT) (p : ℚ)
    (h : (raw.get? i).bind edsParseEntryCore = some (s, p)) :
    hourAt raw i = some s ∧ i < raw.length := by
  cases hv : raw.get? i with
  | none => rw [hv] at h; simp at h
  | some v =>
    have hlen : i < raw.length := by
      by_contra hc
      rw [List.get?_eq_none.mpr (Nat.le_of_not_lt hc)] at hv
      exact Option.noConfusion hv
    rw [hv] at h
    simp only [Option.some_bind] at h
    refine ⟨?_, hlen⟩
    cases v with
    | vDict d =>
      simp only [edsParseEntryCore] at h
      split at h
      · rename_i hk pk hfk hfp
        split at h
        · rename_i s2 p2 hpd hpf
          simp only [Option.some.injEq, Prod.mk.injEq] at h
          simp only [hourAt, hv, neighborHour, hfk, hpd, h.1]
        · exact absurd h (by simp)
      · exact absurd h (by simp)
    | vStr s2 => simp [edsParseEntryCore] at h
    | vNum q => simp [edsParseEntryCore] at h
    | vBool b => simp [edsParseEntryCore] at h
    | vTime t => simp [edsParseEntryCore] at h
    | vList xs => simp [edsParseEntryCore] at h
    | vNone => simp [edsParseEntryCore] at h

theorem parseTodayEntry_cases (raw : List Value) (i : Nat) (e : PriceEntry)
    (h : edsParseTodayEntry raw i = some e) :
    ∃ s p, (raw.get? i).bind edsParseEntryCore = some (s, p) ∧
      edsTodayEnd raw i s = some e.end_time ∧ e.start_time = s ∧
      e.price = p := by
  rw [edsParseTodayEntry] at h
  split at h
  · rename_i s p hcore
    cases hend : edsTodayEnd raw i s with
    | none => rw [hend] at h; simp at h
    | some en =>
      rw [hend] at h
      simp only [Option.map_some', Option.some.injEq] at h
      refine ⟨s, p, hcore, ?_, ?_, ?_⟩
      · rw [← h]; exact hend
      · rw [← h]
      · rw [← h]
  · exact absurd h (by simp)

theorem parseTomorrowEntry_cases (raw : List Value) (tE : List PriceEntry)
    (i : Nat) (e : PriceEntry)
    (h : edsParseTomorrowEntry raw tE i = some e) :
    ∃ s p, (raw.get? i).bind edsParseEntryCore = some (s, p) ∧
      edsTomorrowEnd raw tE i s = some e.end_time ∧ e.start_time = s ∧
      e.price = p := by
  rw [edsParseTomorrowEntry] at h
  split at h
  · rename_i s p hcore
    cases hend : edsTomorrowEnd raw tE i s with
    | none => rw [hend] at h; simp at h
    | some en =>
      rw [hend] at h
      simp only [Option.map_some', Option.some.injEq] at h
      refine ⟨s, p, hcore, ?_, ?_, ?_⟩
      · rw [← h]; exact hend
      · rw [← h]
      · rw [← h]
  · exact absurd h (by simp)

theorem edsInferNext_cases (raw : List Value) (i : Nat) (s en : DT)
    (hlt : i + 1 < raw.length) (h : edsInferNext raw i s = some en) :
    hourAt raw (i + 1) = some en ∨ en = s.addMinutes 60 := by
  obtain ⟨v, hv⟩ := get?_some_of_lt raw (i + 1) hlt
  rw [edsInferNext, hv] at h
  simp only [Option.getD_some] at h
  cases hnb : neighborHour v with
  | none => rw [hnb] at h; simp at h
  | some o =>
    cases o with
    | none =>
      rw [hnb] at h
      simp only [Option.some.injEq] at h
      exact Or.inr h.symm
    | some ns =>
      rw [hnb] at h
      simp only [Option.some.injEq] at h
      left
      simp only [hourAt, hv, hnb, h]

theorem dtLt_iff (a b : DT) : dtLt a b = true ↔ a.instant < b.instant := by
  simp [dtLt]

theorem edsTodayEnd_lt (raw : List Value) (H : hourIncreasingB raw = true)
    (i : Nat) (s en : DT) (hlen : i < raw.length)
    (hi : hourAt raw i = some s) (h : edsTodayEnd raw i s = some en) :
    dtLt s en = true := by
  rw [edsTodayEnd] at h
  split at h
  · rename_i hlt
    rcases edsInferNext_cases raw i s en hlt h with hnext | h60
    · exact hourIncreasing_lt raw H (Nat.lt_succ_self i) hlt hi hnext
    · subst h60
      exact dtLt_addMinutes_pos s 60 (by omega)
  · rename_i hnlt
    split at h
    · rename_i hpos
      have hprevlen : i - 1 < raw.length := by omega
      obtain ⟨v, hv⟩ := get?_some_of_lt raw (i - 1) hprevlen
      rw [hv] at h
      simp only [Option.getD_some] at h
      cases hnb : neighborHour v with
      | none => rw [hnb] at h; simp at h
      | some o =>
        cases o with
        | none =>
          rw [hnb] at h
          simp only [Option.some.injEq] at h
          subst h
          exact dtLt_addMinutes_pos s 60 (by omega)
        | some ps =>
          rw [hnb] at h
          simp only [Option.some.injEq] at h
          subst h
          have hprev : hourAt raw (i - 1) = some ps := by
            simp only [hourAt, hv, hnb]
          have hps : dtLt ps s = true :=
            hourIncreasing_lt raw H (by omega : i - 1 < i) hlen hprev hi
          rw [dtLt_iff] at hps
          exact dtLt_addMinutes_pos s (DT.sub s ps) (by simp [DT.sub]; omega)
    · simp only [Option.some.injEq] at h
      subst h
      exact dtLt_addMinutes_pos s 60 (by omega)

theorem edsTomorrowEnd_lt (raw : List Value) (tE : List PriceEntry)
    (H : hourIncreasingB raw = true)
    (hpair : ∀ t0 t1 rest, tE = t0 :: t1 :: rest →
      dtLt t0.start_time t1.start_time = true)
    (i : Nat) (s en : DT) (hlen : i < raw.length)
    (hi : hourAt raw i = some s) (h : edsTomorrowEnd raw tE i s = some en) :
    dtLt s en = true := by
  by_cases hlt : i + 1 < raw.length
  · rw [edsTomorrowEnd.eq_def, if_pos hlt] at h
    rcases edsInferNext_cases raw i s en hlt h with hnext | h60
    · exact hourIncreasing_lt raw H (Nat.lt_succ_self i) hlt hi hnext
    · subst h60
      exact dtLt_addMinutes_pos s 60 (by omega)
  · rw [edsTomorrowEnd.eq_def, if_neg hlt] at h
    cases tE with
    | nil =>
      simp only [Option.some.injEq] at h
      subst h
      exact dtLt_addMinutes_pos s 60 (by omega)
    | cons t0 rest =>
      cases rest with
      | nil =>
        simp only [Option.some.injEq] at h
        subst h
        exact dtLt_addMinutes_pos s 60 (by omega)
      | cons t1 rest2 =>
        simp only [Option.some.injEq] at h
        subst h
        have h01 := hpair t0 t1 rest2 rfl
        rw [dtLt_iff] at h01
        exact dtLt_addMinutes_pos s (DT.sub t1.start_time t0.start_time)
          (by simp [DT.sub]; omega)

theorem filterMap_head_exists {α β : Type} (f : α → Option β) :
    ∀ (l : List α) (b : β) (rest : List β),
      l.filterMap f = b :: rest → ∃ a, a ∈ l ∧ f a = some b := by
  intro l
  induction l with
  | nil => intro b rest h; simp at h
  | cons x l ih =>
    intro b rest h
    rw [List.filterMap_cons] at h
    cases hf : f x with
    | none =>
      rw [hf] at h
      obtain ⟨a, ha, hfa⟩ := ih b rest h
      exact ⟨a, List.mem_cons_of_mem _ ha, hfa⟩
    | some y =>
      rw [hf] at h
      injection h with h1 h2
      exact ⟨x, List.mem_cons_self x l, h1 ▸ hf⟩

theorem filterMap_pair_rel {α β : Type} (r : α → α → Prop) (f : α → Option β) :
    ∀ (l : List α), l.Pairwise r → ∀ (b0 b1 : β) (rest : List β),
      l.filterMap f = b0 :: b1 :: rest →
      ∃ a0 a1, a0 ∈ l ∧ a1 ∈ l ∧ r a0 a1 ∧ f a0 = some b0 ∧
        f a1 = some b1 := by
  intro l
  induction l with
  | nil => intro _ b0 b1 rest h; simp at h
  | cons x l ih =>
    intro hp b0 b1 rest h
    rw [List.filterMap_cons] at h
    cases hf : f x with
    | none =>
      rw [hf] at h
      obtain ⟨a0, a1, h0, h1, hr, hf0, hf1⟩ :=
        ih (List.Pairwise.of_cons hp) b0 b1 rest h
      exact ⟨a0, a1, List.mem_cons_of_mem _ h0, List.mem_cons_of_mem _ h1,
        hr, hf0, hf1⟩
    | some y =>
      rw [hf] at h
      injection h with h1 h2
      obtain ⟨a1, ha1, hfa1⟩ := filterMap_head_exists f l b1 rest h2
      rcases List.pairwise_cons.mp hp with ⟨hx, _⟩
      exact ⟨x, a1, List.mem_cons_self x l, List.mem_cons_of_mem _ ha1,
        hx a1 ha1, h1 ▸ hf, hfa1⟩

theorem edsToday_pair (raw : List Value) (H : hourIncreasingB raw = true)
    (t0 t1 : PriceEntry) (rest : List PriceEntry)
    (h : edsTodayEntriesOf raw = t0 :: t1 :: rest) :
    dtLt t0.start_time t1.start_time = true := by
  rw [edsTodayEntriesOf] at h
  obtain ⟨i, j, hi_mem, hj_mem, hij, hfi, hfj⟩ :=
    filterMap_pair_rel (fun a b => a < b) (edsParseTodayEntry raw)
      (List.range raw.length) (List.pairwise_lt_range _) t0 t1 rest h
  obtain ⟨s0, p0, hc0, _, hs0, _⟩ := parseTodayEntry_cases raw i t0 hfi
  obtain ⟨s1, p1, hc1, _, hs1, _⟩ := parseTodayEntry_cases raw j t1 hfj
  obtain ⟨ha0, _⟩ := hourAt_of_core raw i s0 p0 hc0
  obtain ⟨ha1, hlen1⟩ := hourAt_of_core raw j s1 p1 hc1
  rw [hs0, hs1]
  exact hourIncreasing_lt raw H hij hlen1 ha0 ha1

/-- Claim C1 as amended: the last element of the tomorrow bucket never uses
its preceding tomorrow neighbour.  Whenever the final raw tomorrow element
parses, its end is its start plus the width between the first two collected
today entries when at least two exist, and its start plus one hour
otherwise — regardless of how many tomorrow elements precede it.  The
preceding-element width-propagation rule applies only in the today loop. -/
theorem claim1_theorem :
    ∀ (raw : List Value) (tE : List PriceEntry) (i : Nat) (e : PriceEntry),
      i + 1 = raw.length → edsParseTomorrowEntry raw tE i = some e →
      e.end_time =
        (match tE with
        | t0 :: t1 :: _ =>
          e.start_time.addMinutes (DT.sub t1.start_time t0.start_time)
        | _ => e.start_time.addMinutes 60) := by
  intro raw tE i e hlast h
  obtain ⟨s, p, hcore, hend, hst, _⟩ := parseTomorrowEntry_cases raw tE i e h
  rw [edsTomorrowEnd.eq_def, if_neg (by omega)] at hend
  subst hst
  cases tE with
  | nil =>
    simp only [Option.some.injEq] at hend
    exact hend.symm
  | cons t0 rest =>
    cases rest with
    | nil =>
      simp only [Option.some.injEq] at hend
      exact hend.symm
    | cons t1 rest2 =>
      simp only [Option.some.injEq] at hend
      exact hend.symm

/-- Claim C1 witness: the amended rule at the second (and last) element of a
two-element tomorrow bucket with a two-entry today bucket of one-hour
width. -/
theorem claim1_witness :
    1 + 1 = c1RawTomorrow.length ∧
    edsParseTomorrowEntry c1RawTomorrow c1TodayEntries 1 =
      some ⟨⟨1560, 60⟩, ⟨1620, 60⟩, 4⟩ ∧
    (⟨⟨1560, 60⟩, ⟨1620, 60⟩, 4⟩ : PriceEntry).end_time =
      DT.addMinutes (⟨1560, 60⟩ : DT)
        (DT.sub (⟨60, 60⟩ : DT) (⟨0, 60⟩ : DT)) :=
  ⟨by decide, by decide,
    claim1_theorem c1RawTomorrow c1TodayEntries 1
      ⟨⟨1560, 60⟩, ⟨1620, 60⟩, 4⟩ (by decide) (by decide)⟩

/-- Claim C3 as amended: for the hourly variant the invariant holds — a
present current price is the price of a today interval whose half-open
range contains the instant.  For the EPEX variant the current price, when
present, is the price of a successfully parsed input entry whose range
contains the instant, but that entry need not lie in the today bucket (it
may have been discarded from both buckets, as the counterexample shows). -/
theorem claim3_theorem :
    (∀ (attrs : Dict) (now : DT) (p : ℚ),
      (energiParsePrices attrs now).current_price = some p →
      ∃ e, e ∈ (energiParsePrices attrs now).today ∧
        dtLe e.start_time now = true ∧ dtLt now e.end_time = true ∧
        e.price = p) ∧
    (∀ (attrs : Dict) (now : DT) (p : ℚ),
      (epexParsePrices attrs now).current_price = some p →
      ∃ e, e ∈ epexParsedEntries attrs ∧
        dtLe e.start_time now = true ∧ dtLt now e.end_time = true ∧
        e.price = p) := by
  constructor
  · intro attrs now p h
    have h2 : currentPriceOf (edsTodayEntriesOf (edsRawToday attrs)) now =
        some p := h
    obtain ⟨e, hmem, hle, hlt2, hp⟩ := currentPriceOf_some _ now p h2
    refine ⟨e, ?_, hle, hlt2, hp⟩
    have h3 : (energiParsePrices attrs now).today =
        sortByStart (edsTodayEntriesOf (edsRawToday attrs)) := rfl
    rw [h3, mem_sortByStart]
    exact hmem
  · intro attrs now p h
    have h2 : currentPriceOf (epexParsedEntries attrs) now = some p := h
    exact currentPriceOf_some _ now p h2

/-- Claim C3 witness: the amended statement at concrete inputs in which
both parser variants report a current price of 5. -/
theorem claim3_witness :
    (energiParsePrices c3WAttrs c3WNow).current_price = some 5 ∧
    (epexParsePrices c3WAttrs c3WNow).current_price = some 5 ∧
    (∃ e, e ∈ (energiParsePrices c3WAttrs c3WNow).today ∧
      dtLe e.start_time c3WNow = true ∧ dtLt c3WNow e.end_time = true ∧
      e.price = 5) ∧
    (∃ e, e ∈ epexParsedEntries c3WAttrs ∧
      dtLe e.start_time c3WNow = true ∧ dtLt c3WNow e.end_time = true ∧
      e.price = 5) :=
  ⟨by decide, by decide,
    claim3_theorem.1 c3WAttrs c3WNow 5 (by decide),
    claim3_theorem.2 c3WAttrs c3WNow 5 (by decide)⟩

/-- Claim C6 as amended: the parsers enforce no start < end check.  The
EPEX variant copies both bounds verbatim, so every bucket interval
satisfies start < end exactly when every successfully parsed entry does;
the hourly variant satisfies it for every bucket interval whenever the
parsed hour instants are strictly increasing within each raw bucket. -/
theorem claim6_theorem :
    (∀ (attrs : Dict) (now : DT),
      (epexParsedEntries attrs).all
          (fun e => dtLt e.start_time e.end_time) = true →
      ∀ e, (e ∈ (epexParsePrices attrs now).today ∨
          e ∈ (epexParsePrices attrs now).tomorrow) →
        dtLt e.start_time e.end_time = true) ∧
    (∀ (attrs : Dict) (now : DT),
      hourIncreasingB (edsRawToday attrs) = true →
      hourIncreasingB (edsRawTomorrow attrs) = true →
      ∀ e, (e ∈ (energiParsePrices attrs now).today ∨
          e ∈ (energiParsePrices attrs now).tomorrow) →
        dtLt e.start_time e.end_time = true) := by
  constructor
  · intro attrs now hall e hmem
    rw [List.all_eq_true] at hall
    have hmem2 : e ∈ epexParsedEntries attrs := by
      rcases hmem with h1 | h1
      · have h2 : e ∈ sortByStart ((epexParsedEntries attrs).filter
            (fun x => x.start_time.date == (now.startOfDay).date)) := h1
        rw [mem_sortByStart] at h2
        exact (List.mem_filter.mp h2).1
      · have h2 : e ∈ sortByStart ((epexParsedEntries attrs).filter
            (fun x => !(x.start_time.date == (now.startOfDay).date) &&
              x.start_time.date ==
                ((now.startOfDay).addMinutes minutesPerDay).date)) := h1
        rw [mem_sortByStart] at h2
        exact (List.mem_filter.mp h2).1
    exact hall e hmem2
  · intro attrs now hT hM e hmem
    rcases hmem with h1 | h1
    · have h2 : e ∈ edsTodayEntriesOf (edsRawToday attrs) := by
        have h3 : e ∈ sortByStart (edsTodayEntriesOf (edsRawToday attrs)) := h1
        rwa [mem_sortByStart] at h3
      rw [edsTodayEntriesOf, List.mem_filterMap] at h2
      obtain ⟨i, hir, hfi⟩ := h2
      obtain ⟨s, p, hcore, hend, hst, _⟩ := parseTodayEntry_cases _ i e hfi
      obtain ⟨hha, hlen⟩ := hourAt_of_core _ i s p hcore
      rw [hst]
      exact edsTodayEnd_lt _ hT i s e.end_time hlen hha hend
    · have h2 : e ∈ edsTomorrowEntriesOf (edsRawTomorrow attrs)
          (edsTodayEntriesOf (edsRawToday attrs)) := by
        have h3 : e ∈ sortByStart (edsTomorrowEntriesOf (edsRawTomorrow attrs)
            (edsTodayEntriesOf (edsRawToday attrs))) := h1
        rwa [mem_sortByStart] at h3
      rw [edsTomorrowEntriesOf, List.mem_filterMap] at h2
      obtain ⟨i, hir, hfi⟩ := h2
      obtain ⟨s, p, hcore, hend, hst, _⟩ := parseTomorrowEntry_cases _ _ i e hfi
      obtain ⟨hha, hlen⟩ := hourAt_of_core _ i s p hcore
      rw [hst]
      refine edsTomorrowEnd_lt _ _ hM ?_ i s e.end_time hlen hha hend
      intro t0 t1 rest hteq
      exact edsToday_pair _ hT t0 t1 rest hteq

/-- Claim C6 witness: the amended statement at a concrete mapping with a
well-ordered EPEX entry and strictly increasing hourly buckets. -/
theorem claim6_witness :
    (epexParsedEntries c6WAttrs).all
        (fun e => dtLt e.start_time e.end_time) = true ∧
    hourIncreasingB (edsRawToday c6WAttrs) = true ∧
    hourIncreasingB (edsRawTomorrow c6WAttrs) = true ∧
    dtLt (⟨1500, 60⟩ : DT) ⟨1560, 60⟩ = true ∧
    dtLt (⟨1440, 60⟩ : DT) ⟨1500, 60⟩ = true :=
  ⟨by decide, by decide, by decide,
    claim6_theorem.1 c6WAttrs c6Now (by decide)
      ⟨⟨1500, 60⟩, ⟨1560, 60⟩, 2⟩ (Or.inl (by decide)),
    claim6_theorem.2 c6WAttrs c6Now (by decide) (by decide)
      ⟨⟨1440, 60⟩, ⟨1500, 60⟩, 1⟩ (Or.inl (by decide))⟩

/-- Claim C10: the transform preserves everything except prices.  For every
parsed set and cost parameters, each output of `calculate_all_prices` has a
detailed data list that is exactly the today entries followed by the
tomorrow entries, in order, with the serialized bounds of the corresponding
input intervals (absent when both buckets are empty, matching the source
guard); the validity flag is the input flag; and the consumption and
injection outputs agree on everything except price values and the
statistics derived from them. -/
theorem claim10_theorem :
    ∀ (parsed : ParsedPriceData) (params : CostParameters),
      ((calculate_all_prices parsed params).1.data =
        if (parsed.today ++ parsed.tomorrow).isEmpty then none
        else some ((parsed.today ++ parsed.tomorrow).map (fun e =>
          CalculatedPriceEntry.mk e.start_time.isoformat e.end_time.isoformat
            (calculate_consumption_price e.price params)))) ∧
      ((calculate_all_prices parsed params).2.data =
        if (parsed.today ++ parsed.tomorrow).isEmpty then none
        else some ((parsed.today ++ parsed.tomorrow).map (fun e =>
          CalculatedPriceEntry.mk e.start_time.isoformat e.end_time.isoformat
            (calculate_injection_price e.price params)))) ∧
      (calculate_all_prices parsed params).1.tomorrow_valid =
        parsed.tomorrow_valid ∧
      (calculate_all_prices parsed params).2.tomorrow_valid =
        parsed.tomorrow_valid ∧
      framePart (calculate_all_prices parsed params).1 =
        framePart (calculate_all_prices parsed params).2 := by
  intro parsed params
  obtain ⟨today, tomorrow, cp, tv⟩ := parsed
  refine ⟨?_, ?_, rfl, rfl, ?_⟩
  · cases today <;> cases tomorrow <;>
      simp [calculate_all_prices, calculatePriceData, List.map_append]
  · cases today <;> cases tomorrow <;>
      simp [calculate_all_prices, calculatePriceData, List.map_append]
  · cases today <;> cases tomorrow <;>
      simp [calculate_all_prices, calculatePriceData, framePart,
        List.map_map, Function.comp_def, List.length_map]
